import Mathlib

/-!
A verification development for `bowtie/_report.py`: the streaming report
builder and aggregator of the bowtie JSON-Schema compliance harness.

The Python module is shallowly embedded below:

* `rpds.HashTrieMap` (an immutable map with insert-replaces semantics) is
  embedded as an association list with key-replacing insertion
  (`mapInsert` / `mapFind?` / `mapContains`).
* `url.URL` values are embedded as their string form; the module only ever
  compares dialect URIs for equality and uses them as dictionary keys.
* Python exceptions (`EmptyReport`, `_InvalidBowtieReport`, `KeyError`,
  `IndexError`, `ZeroDivisionError`) are embedded as `Except` errors.
* The record classes `CaseResult`, `CaseErrored`, `CaseSkipped`, `TestCase`
  and the `be_counted` counting hook live in `bowtie/_commands.py`, which is
  not among the sources; those definitions are modelled from the spec and
  are marked as such in their doc comments.
-/

namespace Bowtie

/-- `mapFind? m k` — lookup in an association list; embeds
`HashTrieMap.get` / `HashTrieMap.__getitem__` (first binding wins; the
lists built below never hold a duplicate key). -/
def mapFind? {α β : Type} [DecidableEq α] : List (α × β) → α → Option β
  | [], _ => none
  | (a, b) :: rest, k => if a = k then some b else mapFind? rest k

/-- `mapContains m k` — embeds Python's `k in m` on mappings. -/
def mapContains {α β : Type} [DecidableEq α] (m : List (α × β)) (k : α) : Bool :=
  (mapFind? m k).isSome

/-- `mapInsert m k v` — embeds `HashTrieMap.insert`, which replaces the
binding when the key is already present. -/
def mapInsert {α β : Type} [DecidableEq α] : List (α × β) → α → β → List (α × β)
  | [], k, v => [(k, v)]
  | (a, b) :: rest, k, v =>
      if a = k then (k, v) :: rest else (a, b) :: mapInsert rest k v

/-! ## The data model

`Seq` is `int` in the source (`bowtie/_commands.py`); embedded as `Nat`
(sequence numbers are produced by a counter starting at 1). -/

/-- Modelled from the spec: a `Test` is one input instance plus an expected
valid/invalid verdict (optional).  Defined in `bowtie/_commands.py`, which
is not among the sources. -/
structure Test where
  input : String
  valid : Option Bool
deriving DecidableEq

/-- Modelled from the spec: a `TestCase` is a schema document, a human
description, an ordered sequence of `Test`s, and the dialect injected at
decode time.  Defined in `bowtie/_commands.py`, not among the sources. -/
structure TestCase where
  description : String
  schema : String
  tests : List Test
  dialect : String
deriving DecidableEq

/-- The case payload of a case record, before the dialect is injected. -/
structure CaseBody where
  description : String
  schema : String
  tests : List Test
deriving DecidableEq

/-- `TestCase.from_dict` after the report's dialect has been injected into
the payload (`case["dialect"] = metadata.dialect`). -/
def TestCase.from_dict (dialect : String) (body : CaseBody) : TestCase :=
  { description := body.description
    schema := body.schema
    tests := body.tests
    dialect := dialect }

/-- Modelled from the spec: a test-level outcome increments exactly one of
{failed, errored, skipped}, or nothing when it passes. -/
inductive TestOutcome where
  | passed
  | failed
  | errored
  | skipped
deriving DecidableEq

/-- Modelled from the spec: `CaseResult{implementation, seq, ordered
per-test outcomes}` (`bowtie/_commands.py`, not among the sources). -/
structure CaseResult where
  implementation : String
  seq : Nat
  results : List TestOutcome
deriving DecidableEq

/-- Modelled from the spec: `CaseErrored{implementation, seq, context,
caught-flag}` (`bowtie/_commands.py`, not among the sources). -/
structure CaseErrored where
  implementation : String
  seq : Nat
  context : String
  caught : Bool
deriving DecidableEq

/-- Modelled from the spec: `CaseSkipped{implementation, seq, reason}`
(`bowtie/_commands.py`, not among the sources). -/
structure CaseSkipped where
  implementation : String
  seq : Nat
  message : Option String
deriving DecidableEq

/-- The tagged variant `AnyCaseResult = CaseResult | CaseErrored |
CaseSkipped`. -/
inductive AnyCaseResult where
  | result (r : CaseResult)
  | errored (e : CaseErrored)
  | skipped (s : CaseSkipped)
deriving DecidableEq

def AnyCaseResult.seq : AnyCaseResult → Nat
  | .result r => r.seq
  | .errored e => e.seq
  | .skipped s => s.seq

def AnyCaseResult.implementation : AnyCaseResult → String
  | .result r => r.implementation
  | .errored e => e.implementation
  | .skipped s => s.implementation

/-- `Count` — rolling per-implementation counters (`_report.py`, lines
189-200). -/
structure Count where
  failed_tests : Nat := 0
  errored_tests : Nat := 0
  skipped_tests : Nat := 0
deriving DecidableEq

/-- Any test which was not a successful result, including skips. -/
def Count.unsuccessful_tests (c : Count) : Nat :=
  c.errored_tests + c.failed_tests + c.skipped_tests

/-- Modelled from the spec: `be_counted` (from `bowtie/_commands.py`, not
among the sources).  Each test-level outcome of a `CaseResult` increments
exactly one of {failed, errored, skipped}; passing outcomes increment
nothing; `CaseErrored` increments errored by one (case-level);
`CaseSkipped` increments skipped by one. -/
def AnyCaseResult.be_counted : AnyCaseResult → Count → Count
  | .result r, c =>
      { failed_tests := c.failed_tests + r.results.count .failed
        errored_tests := c.errored_tests + r.results.count .errored
        skipped_tests := c.skipped_tests + r.results.count .skipped }
  | .errored _, c => { c with errored_tests := c.errored_tests + 1 }
  | .skipped _, c => { c with skipped_tests := c.skipped_tests + 1 }

/-- The error kinds raised during report assembly and queries.
`EmptyReport` is a dedicated exception class in the source;
`duplicateCase` and `duplicateResult` are the two `_InvalidBowtieReport`
messages; `malformedRecord` stands for the decoding failures
(`TypeError` from `RunMetadata.from_dict` on a non-header first record,
and record shapes missing required fields). -/
inductive ReportError where
  | emptyReport
  | duplicateCase (seq : Nat)
  | duplicateResult (seq : Nat)
  | malformedRecord
deriving DecidableEq

/-- `Summary` (`_report.py`, lines 203-238): a mapping Seq →
(implementation → AnyCaseResult) plus a mapping implementation → Count. -/
structure Summary where
  results : List (Nat × List (String × AnyCaseResult)) := []
  by_implementation : List (String × Count) := []
deriving DecidableEq

/-- Whether the summary already holds a result for `(seq, implementation)`. -/
def Summary.hasResult (s : Summary) (seq : Nat) (implementation : String) : Bool :=
  mapContains ((mapFind? s.results seq).getD []) implementation

/-- `Summary.with_result` (`_report.py`, lines 219-238).  The duplicate
check raises `_InvalidBowtieReport` ("Duplicate result for case ID
{seq}!"); otherwise `evolve` returns a new `Summary` carrying both the
updated `by_implementation` entry and the inserted result. -/
def Summary.with_result (s : Summary) (result : AnyCaseResult) :
    Except ReportError Summary :=
  let seq := result.seq
  let results := (mapFind? s.results seq).getD []
  let implementation := result.implementation
  if mapContains results implementation then
    .error (.duplicateResult seq)
  else
    let count := (mapFind? s.by_implementation implementation).getD {}
    .ok { s with
          by_implementation :=
            mapInsert s.by_implementation implementation
              (result.be_counted count)
          results :=
            mapInsert s.results seq (mapInsert results implementation result) }

/-! ## RunMetadata -/

/-- One implementation descriptor as consumed by `generate_badges` and
`Report.implementations`: the source keeps these as free-form dicts with
keys `"name"`, `"language"`, `"image"`, `"dialects"`. -/
structure ImplInfo where
  name : String
  language : String
  image : String
  dialects : List String
deriving DecidableEq

/-- `_DIALECT_URI_TO_SHORTNAME` (`_report.py`, lines 39-46); URLs embedded
as their string form. -/
def DIALECT_URI_TO_SHORTNAME : List (String × String) :=
  [("https://json-schema.org/draft/2020-12/schema", "Draft 2020-12"),
   ("https://json-schema.org/draft/2019-09/schema", "Draft 2019-09"),
   ("http://json-schema.org/draft-07/schema#", "Draft 7"),
   ("http://json-schema.org/draft-06/schema#", "Draft 6"),
   ("http://json-schema.org/draft-04/schema#", "Draft 4"),
   ("http://json-schema.org/draft-03/schema#", "Draft 3")]

/-- `RunMetadata` (`_report.py`, lines 241-290).  Only the fields the
claims touch are embedded: the dialect URI (as its string form) and the
values of the implementations mapping, in insertion order (the mapping's
keys are not read by any embedded operation).  The version string, the
free-form metadata and the start timestamp are not referenced by any
claim and are omitted. -/
structure RunMetadata where
  dialect : String
  implementations : List ImplInfo
deriving DecidableEq

/-- `RunMetadata.dialect_shortname` (`_report.py`, lines 276-278):
`_DIALECT_URI_TO_SHORTNAME.get(self.dialect, self.dialect)`. -/
def RunMetadata.dialect_shortname (m : RunMetadata) : String :=
  (mapFind? DIALECT_URI_TO_SHORTNAME m.dialect).getD m.dialect

/-! ## Report assembly -/

/-- One already-decoded record of the line-delimited stream, classified
into the five record kinds of the dispatch (spec §4.2) plus the header.
The source dispatches on overlapping dict shapes in a fixed priority
order; the claims quantify over streams of decoded records, so the stream
is embedded post-classification. -/
inductive Record where
  | headerRec (metadata : RunMetadata)
  | caseRec (seq : Nat) (body : CaseBody)
  | erroredRec (e : CaseErrored)
  | skippedRec (s : CaseSkipped)
  | failFastRec (did_fail_fast : Bool)
  | resultRec (r : CaseResult)
deriving DecidableEq

/-- The mutable loop state of `Report.from_input`: `cases`, `summary`,
`did_fail_fast`. -/
structure FoldState where
  cases : List (Nat × TestCase) := []
  summary : Summary := {}
  did_fail_fast : Bool := false
deriving DecidableEq

/-- The `for data in iterator` loop of `Report.from_input` (`_report.py`,
lines 311-330).  A case record with a registered Seq raises
`_InvalidBowtieReport` ("Duplicate case: {seq}"); error/skip/result
records go through `Summary.with_result`; a terminal record records the
flag and `break`s, so the remaining records are never consumed; a header
record mid-stream would fail `CaseResult.from_dict` decoding. -/
def foldRecords (metadata : RunMetadata) (st : FoldState) :
    List Record → Except ReportError FoldState
  | [] => .ok st
  | record :: rest =>
    match record with
    | .headerRec _ => .error .malformedRecord
    | .caseRec seq body =>
        if mapContains st.cases seq then
          .error (.duplicateCase seq)
        else
          foldRecords metadata
            { st with cases :=
                mapInsert st.cases seq (TestCase.from_dict metadata.dialect body) }
            rest
    | .erroredRec e =>
        match st.summary.with_result (.errored e) with
        | .error err => .error err
        | .ok summary => foldRecords metadata { st with summary := summary } rest
    | .skippedRec sk =>
        match st.summary.with_result (.skipped sk) with
        | .error err => .error err
        | .ok summary => foldRecords metadata { st with summary := summary } rest
    | .failFastRec b => .ok { st with did_fail_fast := b }
    | .resultRec r =>
        match st.summary.with_result (.result r) with
        | .error err => .error err
        | .ok summary => foldRecords metadata { st with summary := summary } rest

/-- `Report` (`_report.py`, lines 293-298). -/
structure Report where
  cases : List (Nat × TestCase)
  metadata : RunMetadata
  summary : Summary
  did_fail_fast : Bool
deriving DecidableEq

/-- `Report.from_input` (`_report.py`, lines 300-336): the first record is
mandatory (`EmptyReport` otherwise) and produces `RunMetadata`; the rest
is the single-pass fold above. -/
def Report.from_input (input : List Record) : Except ReportError Report :=
  match input with
  | [] => .error .emptyReport
  | first :: rest =>
    match first with
    | .headerRec metadata =>
        match foldRecords metadata {} rest with
        | .error err => .error err
        | .ok st =>
            .ok { cases := st.cases
                  metadata := metadata
                  summary := st.summary
                  did_fail_fast := st.did_fail_fast }
    | _ => .error .malformedRecord

def Report.dialect (r : Report) : String := r.metadata.dialect

def Report.is_empty (r : Report) : Bool := r.cases.isEmpty

/-- `Report.total_tests` (`_report.py`, lines 362-364). -/
def Report.total_tests (r : Report) : Nat :=
  (r.cases.map fun p => p.2.tests.length).sum

/-- `Report.implementations` (`_report.py`, lines 366-368): the image
identifiers drawn from the metadata. -/
def Report.implementations (r : Report) : List String :=
  r.metadata.implementations.map ImplInfo.image

/-! ## Queries: cases_with_results -/

/-- The query-time failures of `cases_with_results`: `keyError seq` is the
`KeyError` of `self.summary[seq]` when a registered case has no results
at all; `indexError` is the `IndexError` of `case_results[each].results[i]`
when a result does not cover a test position. -/
inductive QueryError where
  | keyError (seq : Nat)
  | indexError
deriving DecidableEq

/-- Modelled from the spec: the per-test view `results[i]` of an
`AnyCaseResult` used by `cases_with_results` ("a mapping from
implementation name to that Test's specific outcome").  A `CaseResult`
holds ordered per-test outcomes; a case-level error or skip shows as that
outcome at every test position (`bowtie/_commands.py`, not among the
sources). -/
def AnyCaseResult.resultsAt : AnyCaseResult → Nat → Option TestOutcome
  | .result r, i => r.results.get? i
  | .errored _, _ => some .errored
  | .skipped _, _ => some .skipped

/-- The dict comprehension of `cases_with_results` (`_report.py`, lines
382-386): walk `self.implementations`, keep those with a result for the
case, and index that result at test position `i`. -/
def testRow (case_results : List (String × AnyCaseResult)) (i : Nat) :
    List String → Except QueryError (List (String × TestOutcome))
  | [] => .ok []
  | each :: rest =>
      match mapFind? case_results each with
      | none => testRow case_results i rest
      | some res =>
          match res.resultsAt i with
          | none => .error .indexError
          | some outcome =>
              match testRow case_results i rest with
              | .error err => .error err
              | .ok m => .ok ((each, outcome) :: m)

/-- The `for i, test in enumerate(case.tests)` loop of
`cases_with_results` (`_report.py`, lines 381-387), carrying the running
index. -/
def caseRows (implementations : List String)
    (case_results : List (String × AnyCaseResult)) (i : Nat) :
    List Test → Except QueryError (List (Test × List (String × TestOutcome)))
  | [] => .ok []
  | t :: ts =>
      match testRow case_results i implementations with
      | .error err => .error err
      | .ok m =>
          match caseRows implementations case_results (i + 1) ts with
          | .error err => .error err
          | .ok rest => .ok ((t, m) :: rest)

/-- The outer `for seq, case in sorted(self._cases.items())` loop
(`_report.py`, lines 378-388).  `self.summary[seq]` is
`Summary.__getitem__`, a plain indexing that raises `KeyError` when the
Seq holds no results. -/
def casesLoop (implementations : List String)
    (summary_results : List (Nat × List (String × AnyCaseResult))) :
    List (Nat × TestCase) →
      Except QueryError (List (TestCase × List (Test × List (String × TestOutcome))))
  | [] => .ok []
  | (seq, case) :: rest =>
      match mapFind? summary_results seq with
      | none => .error (.keyError seq)
      | some case_results =>
          match caseRows implementations case_results 0 case.tests with
          | .error err => .error err
          | .ok rows =>
              match casesLoop implementations summary_results rest with
              | .error err => .error err
              | .ok more => .ok ((case, rows) :: more)

/-- `sorted(self._cases.items())`: Python sorts the (seq, case) pairs;
with pairwise-distinct Seqs this is a sort on the Seq key. -/
def sortCases (cases : List (Nat × TestCase)) : List (Nat × TestCase) :=
  List.insertionSort (fun a b => a.1 ≤ b.1) cases

/-- `Report.cases_with_results` (`_report.py`, lines 370-388), with the
lazy generator materialised as a list (the source's generator is
restartable pure recomputation, spec §4.3). -/
def Report.cases_with_results (rep : Report) :
    Except QueryError (List (TestCase × List (Test × List (String × TestOutcome)))) :=
  casesLoop rep.implementations rep.summary.results (sortCases rep.cases)

/-! ## Badge generation -/

/-- The runtime failures of `generate_badges`: `labelKeyError` is the
`KeyError` of `_DIALECT_URI_TO_SHORTNAME[self.dialect]` (line 391, a plain
indexing — no fallback); `shortnameKeyError` the same indexing for a
supported dialect (line 398); `countsKeyError` the `KeyError` of
`self.summary.by_implementation[impl["image"]]` (line 403);
`zeroDivision` the `ZeroDivisionError` of `passed / total` when
`total_tests == 0` (line 410). -/
inductive BadgeError where
  | labelKeyError
  | shortnameKeyError
  | countsKeyError
  | zeroDivision
deriving DecidableEq

/-- One badge JSON document: `{schemaVersion, label, message, color}`. -/
structure BadgeDoc where
  schemaVersion : Nat
  label : String
  message : String
  color : String
deriving DecidableEq

/-- Python `str.removeprefix`, computed on the character list (Lean's
`String.startsWith` is not kernel-reducible). -/
def removePre (p s : String) : String :=
  if p.data.isPrefixOf s.data then String.mk (s.data.drop p.data.length) else s

/-- Truncation toward zero, the semantics of Python `int()` applied to the
percentage. -/
def qtrunc (q : ℚ) : ℤ :=
  if q < 0 then -(Int.floor (-q)) else Int.floor q

/-- Python `str.replace` for a single-character pattern and replacement
(the only use in the source is `label.replace(" ", "_")`), computed on
the character list. -/
def replaceChar (s : String) (c r : Char) : String :=
  String.mk (s.data.map fun ch => if ch = c then r else ch)

/-- Lowercase hexadecimal digits of a natural number (Python `"%x"`). -/
def natHex (n : Nat) : String :=
  (Nat.toDigits 16 n).asString

/-- Python `f"{i:02x}"`: two-digit zero-padded lowercase hex (a negative
value renders with a leading minus sign, as in Python). -/
def hex02 (i : ℤ) : String :=
  if i < 0 then "-" ++ natHex i.natAbs
  else
    let s := natHex i.toNat
    if s.length < 2 then "0" ++ s else s

/-- `passed = total - counts.failed_tests - counts.errored_tests -
counts.skipped_tests` (`_report.py`, lines 404-409). -/
def badgePassed (total : Nat) (counts : Count) : ℤ :=
  (total : ℤ) - counts.failed_tests - counts.errored_tests - counts.skipped_tests

/-- `pct = (passed / total) * 100` (`_report.py`, line 410), as exact
rational arithmetic. -/
def badgePct (total : Nat) (counts : Count) : ℚ :=
  ((badgePassed total counts : ℚ) / (total : ℚ)) * 100

/-- The loop body of `generate_badges` for one implementation
(`_report.py`, lines 393-430), producing the written artifacts as
(path-segments, document) pairs: the per-dialect compliance badge and the
supported-versions badge, in write order.  An implementation whose
declared dialects do not include the report's dialect is skipped
(`continue`).  The filesystem writes themselves are out of scope; an
error produces no artifacts for this implementation. -/
def badgesFor (label : String) (total : Nat) (summary : Summary)
    (dialect : String) (impl : ImplInfo) :
    Except BadgeError (List (List String × BadgeDoc)) :=
  let dialect_versions := impl.dialects
  if dialect ∈ dialect_versions then
    match (dialect_versions.reverse.mapM fun each =>
        mapFind? DIALECT_URI_TO_SHORTNAME each) with
    | none => .error .shortnameKeyError
    | some shortnames =>
        let supported_drafts :=
          String.intercalate ", " (shortnames.map (removePre "Draft "))
        let name := impl.name
        let lang := impl.language
        match mapFind? summary.by_implementation impl.image with
        | none => .error .countsKeyError
        | some counts =>
            if total = 0 then .error .zeroDivision
            else
              let pct := badgePct total counts
              let r := 100 - qtrunc pct
              let g := qtrunc pct
              let b : ℤ := 0
              let badge_per_draft : BadgeDoc :=
                { schemaVersion := 1
                  label := label
                  message := toString (qtrunc pct) ++ "% Passing"
                  color := hex02 r ++ hex02 g ++ hex02 b }
              let badge_supp_draft : BadgeDoc :=
                { schemaVersion := 1
                  label := "JSON Schema Versions"
                  message := supported_drafts
                  color := "lightgreen" }
              .ok [([lang ++ "-" ++ name, "compliance",
                     replaceChar label ' ' '_' ++ ".json"], badge_per_draft),
                   ([lang ++ "-" ++ name, "supported_versions.json"],
                    badge_supp_draft)]
  else .ok []

/-- `Report.generate_badges` (`_report.py`, lines 390-430).  Line 391
indexes `_DIALECT_URI_TO_SHORTNAME[self.dialect]` directly — a `KeyError`
for an unknown dialect, raised before any implementation is visited and
before any artifact is written; the per-implementation loop then
accumulates the written artifacts.  A failure inside the loop aborts it;
artifacts already written by earlier iterations are not tracked by the
embedding (no claim speaks about them). -/
def Report.generate_badges (rep : Report) :
    Except BadgeError (List (List String × BadgeDoc)) :=
  match mapFind? DIALECT_URI_TO_SHORTNAME rep.dialect with
  | none => .error .labelKeyError
  | some label =>
      let total := rep.total_tests
      match (rep.metadata.implementations.mapM fun impl =>
          badgesFor label total rep.summary rep.dialect impl) with
      | .error err => .error err
      | .ok artifacts => .ok artifacts.flatten

/-! ## Derived definitions used by the verification -/

/-- Fold a list of already-decoded result-bearing records into a `Summary`
through `Summary.with_result` (the spec's "folding the same set of result
records"). -/
def foldResults (s : Summary) : List AnyCaseResult → Except ReportError Summary
  | [] => .ok s
  | r :: rest =>
      match s.with_result r with
      | .error e => .error e
      | .ok s' => foldResults s' rest

/-- Pointwise addition of `Count`s. -/
def Count.add (c d : Count) : Count :=
  { failed_tests := c.failed_tests + d.failed_tests
    errored_tests := c.errored_tests + d.errored_tests
    skipped_tests := c.skipped_tests + d.skipped_tests }

/-- The `Count` contribution of one result-bearing record. -/
def AnyCaseResult.delta (r : AnyCaseResult) : Count :=
  r.be_counted {}

/-- The rolling `Count` a summary holds for an implementation (the lookup
`self.by_implementation.get(implementation, Count())`). -/
def Summary.countFor (s : Summary) (implementation : String) : Count :=
  (mapFind? s.by_implementation implementation).getD {}

instance : IsTotal (Nat × TestCase) (fun a b => a.1 ≤ b.1) :=
  ⟨fun a b => Nat.le_total a.1 b.1⟩

instance : IsTrans (Nat × TestCase) (fun a b => a.1 ≤ b.1) :=
  ⟨fun _ _ _ h1 h2 => le_trans h1 h2⟩

/-! ## Concrete fixtures used by witnesses and counterexamples -/

def draft7 : String := "http://json-schema.org/draft-07/schema#"

def mdDemo : RunMetadata := ⟨"urn:dialect", [⟨"impl", "lang", "i", []⟩]⟩

def bodyDemo : CaseBody := ⟨"case one", "{}", [⟨"{}", some true⟩]⟩

def bodyDemo2 : CaseBody := ⟨"case two", "{}", []⟩

def resDemo : CaseResult := ⟨"i", 1, [.passed]⟩

def resDemo2 : CaseResult := ⟨"i", 2, [.passed]⟩

/-- The stream of the fail-fast truncation property (spec §8):
`[header, case(seq=1), result(seq=1), {did_fail_fast:true}, case(seq=2),
result(seq=2)]`. -/
def demoStream : List Record :=
  [.headerRec mdDemo, .caseRec 1 bodyDemo, .resultRec resDemo,
   .failFastRec true, .caseRec 2 bodyDemo2, .resultRec resDemo2]

/-- The report the truncated stream assembles to: only seq 1's case and
result, and `did_fail_fast = true`. -/
def demoReport : Report :=
  { cases := [(1, TestCase.from_dict "urn:dialect" bodyDemo)]
    metadata := mdDemo
    summary := { results := [(1, [("i", .result resDemo)])]
                 by_implementation := [("i", {})] }
    did_fail_fast := true }

/-- A result-bearing record for the `with_result` witness. -/
def resErr : AnyCaseResult := .errored ⟨"i", 1, "boom", true⟩

/-- A summary already holding a result for `(1, "i")`. -/
def sumDup : Summary :=
  { results := [(1, [("i", resErr)])]
    by_implementation := [("i", { errored_tests := 1 })] }

/-- A stream whose report registers a case at seq 1 but holds no result
for it. -/
def strmNoResult : List Record := [.headerRec mdDemo, .caseRec 1 bodyDemo]

/-- The report assembled from `strmNoResult`. -/
def repNoResult : Report :=
  { cases := [(1, TestCase.from_dict "urn:dialect" bodyDemo)]
    metadata := mdDemo
    summary := {}
    did_fail_fast := false }

/-- A stream with one case and one result, every test position covered. -/
def strmOneResult : List Record :=
  [.headerRec mdDemo, .caseRec 1 bodyDemo, .resultRec resDemo]

/-- The report assembled from `strmOneResult`. -/
def repOneResult : Report :=
  { cases := [(1, TestCase.from_dict "urn:dialect" bodyDemo)]
    metadata := mdDemo
    summary := { results := [(1, [("i", .result resDemo)])]
                 by_implementation := [("i", {})] }
    did_fail_fast := false }

/-- An implementation declaring support for Draft 7. -/
def implSupp : ImplInfo := ⟨"imp", "python", "img", [draft7]⟩

/-- A stream over a dialect the implementation supports that registers no
case at all but carries one result record (results for unregistered Seqs
are accepted), so `total_tests = 0` while the implementation has a
`Count`. -/
def strmZeroTotal : List Record :=
  [.headerRec ⟨draft7, [implSupp]⟩, .resultRec ⟨"img", 1, []⟩]

/-- The report assembled from `strmZeroTotal`. -/
def repZeroTotal : Report :=
  { cases := []
    metadata := ⟨draft7, [implSupp]⟩
    summary := { results := [(1, [("img", .result ⟨"img", 1, []⟩)])]
                 by_implementation := [("img", {})] }
    did_fail_fast := false }

/-- A ten-test case for the badge-arithmetic property. -/
def caseTen : TestCase :=
  ⟨"ten tests", "{}", List.replicate 10 ⟨"{}", some true⟩, draft7⟩

/-- `total_tests=10, failed=1, errored=0, skipped=1`. -/
def countsBadge : Count := ⟨1, 0, 1⟩

/-- A report with ten registered tests and the counts above for the one
implementation. -/
def repBadge : Report :=
  { cases := [(1, caseTen)]
    metadata := ⟨draft7, [implSupp]⟩
    summary := { results := [(1, [("img", .result ⟨"img", 1, []⟩)])]
                 by_implementation := [("img", countsBadge)] }
    did_fail_fast := false }

/-- A report whose dialect is not in the shortname table. -/
def repUnknownDialect : Report :=
  { cases := []
    metadata := ⟨"urn:example:dialect", []⟩
    summary := {}
    did_fail_fast := false }

/-! ## Theorems -/
theorem mapFind?_mapInsert {α β : Type} [DecidableEq α]
    (m : List (α × β)) (k : α) (v : β) (q : α) :
    mapFind? (mapInsert m k v) q = if k = q then some v else mapFind? m q := by
  induction m with
  | nil =>
      by_cases h : k = q <;> simp [mapInsert, mapFind?, h]
  | cons p rest ih =>
      obtain ⟨a, b⟩ := p
      by_cases hak : a = k
      · subst hak
        by_cases haq : a = q <;> simp [mapInsert, mapFind?, haq]
      · by_cases haq : a = q
        · subst haq
          have hkq : ¬k = a := fun h => hak h.symm
          simp [mapInsert, mapFind?, hak, hkq]
        · simp [mapInsert, mapFind?, hak, haq, ih]

theorem mapContains_mapInsert {α β : Type} [DecidableEq α]
    (m : List (α × β)) (k : α) (v : β) (q : α) :
    mapContains (mapInsert m k v) q = (k = q || mapContains m q) := by
  by_cases h : k = q <;> simp [mapContains, mapFind?_mapInsert, h]

theorem mapFind?_mem {α β : Type} [DecidableEq α]
    (m : List (α × β)) (k : α) (v : β) (h : mapFind? m k = some v) :
    (k, v) ∈ m := by
  induction m with
  | nil => simp [mapFind?] at h
  | cons p rest ih =>
      obtain ⟨a, b⟩ := p
      by_cases hak : a = k
      · subst hak
        simp [mapFind?] at h
        simp [h]
      · simp [mapFind?, hak] at h
        exact List.mem_cons_of_mem _ (ih h)

theorem mapContains_eq_mem_keys {α β : Type} [DecidableEq α]
    (m : List (α × β)) (k : α) :
    mapContains m k = true ↔ k ∈ m.map Prod.fst := by
  induction m with
  | nil => simp [mapContains, mapFind?]
  | cons p rest ih =>
      obtain ⟨a, b⟩ := p
      by_cases hak : a = k
      · subst hak
        simp [mapContains, mapFind?]
      · have hka : ¬k = a := fun h => hak h.symm
        simp only [mapContains, mapFind?, hak, if_false, List.map_cons,
          List.mem_cons]
        rw [show (mapFind? rest k).isSome = mapContains rest k from rfl]
        constructor
        · intro h
          exact Or.inr (ih.mp h)
        · intro h
          rcases h with h | h
          · exact absurd h hka
          · exact ih.mpr h

theorem mapInsert_keys_of_not_contains {α β : Type} [DecidableEq α]
    (m : List (α × β)) (k : α) (v : β) (h : mapContains m k = false) :
    (mapInsert m k v).map Prod.fst = m.map Prod.fst ++ [k] := by
  induction m with
  | nil => simp [mapInsert]
  | cons p rest ih =>
      obtain ⟨a, b⟩ := p
      by_cases hak : a = k
      · subst hak
        simp [mapContains, mapFind?] at h
      · simp only [mapContains, mapFind?, hak, if_false] at h
        simp [mapInsert, hak, ih h]

/-- The duplicate branch of `with_result`. -/
theorem with_result_error (s : Summary) (r : AnyCaseResult)
    (h : s.hasResult r.seq r.implementation = true) :
    s.with_result r = .error (.duplicateResult r.seq) := by
  unfold Summary.with_result
  simp only [Summary.hasResult] at h
  simp [h]

/-- The insertion branch of `with_result`, as the explicit new summary. -/
theorem with_result_ok (s : Summary) (r : AnyCaseResult)
    (h : s.hasResult r.seq r.implementation = false) :
    s.with_result r = .ok
      { results :=
          mapInsert s.results r.seq
            (mapInsert ((mapFind? s.results r.seq).getD []) r.implementation r)
        by_implementation :=
          mapInsert s.by_implementation r.implementation
            (r.be_counted (s.countFor r.implementation)) } := by
  unfold Summary.with_result
  simp only [Summary.hasResult] at h
  simp [h, Summary.countFor]

/-- CLAIM C1.  For every `Summary` and result-bearing record,
`with_result` either fails with the `DuplicateResult` error when a result
for the same `(Seq, implementation)` pair is already present — producing
no new summary, so the old one is untouched and never silently
overwritten — or succeeds, and the single summary it returns holds both
the `(Seq, implementation) → result` entry and the updated
`implementation → Count` entry, the latter computed from the previous
count defaulting to zero (`Count()` has all-zero fields). -/
theorem with_result_atomic (s : Summary) (r : AnyCaseResult) :
    (s.hasResult r.seq r.implementation = true →
       s.with_result r = .error (.duplicateResult r.seq)) ∧
    (s.hasResult r.seq r.implementation = false →
       ∃ s', s.with_result r = .ok s' ∧
         mapFind? ((mapFind? s'.results r.seq).getD []) r.implementation = some r ∧
         mapFind? s'.by_implementation r.implementation =
           some (r.be_counted (s.countFor r.implementation))) := by
  constructor
  · exact with_result_error s r
  · intro h
    refine ⟨_, with_result_ok s r h, ?_, ?_⟩
    · simp [mapFind?_mapInsert]
    · simp [mapFind?_mapInsert]

/-- Witness for C1: both branches at concrete inputs — a duplicate
insertion into `sumDup` fails, an insertion into the empty summary
produces both entries. -/
theorem with_result_atomic_witness :
    (Summary.with_result sumDup resErr =
       .error (.duplicateResult resErr.seq)) ∧
    (∃ s', Summary.with_result {} resErr = .ok s' ∧
       mapFind? ((mapFind? s'.results resErr.seq).getD [])
           resErr.implementation = some resErr ∧
       mapFind? s'.by_implementation resErr.implementation =
         some (resErr.be_counted (Summary.countFor {} resErr.implementation))) :=
  ⟨(with_result_atomic sumDup resErr).1 (by decide),
   (with_result_atomic {} resErr).2 (by decide)⟩

/-- CLAIM C9.  `Report.from_input` applied to an empty record stream fails
with the `EmptyReport` error. -/
theorem from_input_empty : Report.from_input [] = .error .emptyReport := rfl

/-- CLAIM C6.  `dialect_shortname` maps each of the six known dialect URIs
to its human label, and for a dialect outside the table falls back to the
URI's own (string-form) value; the function is total, so no lookup ever
raises. -/
theorem dialect_shortname_spec (md : RunMetadata) :
    (md.dialect = "https://json-schema.org/draft/2020-12/schema" →
       md.dialect_shortname = "Draft 2020-12") ∧
    (md.dialect = "https://json-schema.org/draft/2019-09/schema" →
       md.dialect_shortname = "Draft 2019-09") ∧
    (md.dialect = "http://json-schema.org/draft-07/schema#" →
       md.dialect_shortname = "Draft 7") ∧
    (md.dialect = "http://json-schema.org/draft-06/schema#" →
       md.dialect_shortname = "Draft 6") ∧
    (md.dialect = "http://json-schema.org/draft-04/schema#" →
       md.dialect_shortname = "Draft 4") ∧
    (md.dialect = "http://json-schema.org/draft-03/schema#" →
       md.dialect_shortname = "Draft 3") ∧
    (mapContains DIALECT_URI_TO_SHORTNAME md.dialect = false →
       md.dialect_shortname = md.dialect) := by
  refine ⟨?_, ?_, ?_, ?_, ?_, ?_, ?_⟩ <;> intro h
  case _ => simp [RunMetadata.dialect_shortname, DIALECT_URI_TO_SHORTNAME, mapFind?, h]
  case _ => simp [RunMetadata.dialect_shortname, DIALECT_URI_TO_SHORTNAME, mapFind?, h]
  case _ => simp [RunMetadata.dialect_shortname, DIALECT_URI_TO_SHORTNAME, mapFind?, h]
  case _ => simp [RunMetadata.dialect_shortname, DIALECT_URI_TO_SHORTNAME, mapFind?, h]
  case _ => simp [RunMetadata.dialect_shortname, DIALECT_URI_TO_SHORTNAME, mapFind?, h]
  case _ => simp [RunMetadata.dialect_shortname, DIALECT_URI_TO_SHORTNAME, mapFind?, h]
  case _ =>
    unfold RunMetadata.dialect_shortname
    rcases hf : mapFind? DIALECT_URI_TO_SHORTNAME md.dialect with _ | v
    · rfl
    · simp [mapContains, hf] at h

/-- Witness for C6: each of the six known URIs, and one unknown URI. -/
theorem dialect_shortname_spec_witness :
    (RunMetadata.mk "https://json-schema.org/draft/2020-12/schema" []).dialect_shortname
      = "Draft 2020-12" ∧
    (RunMetadata.mk "https://json-schema.org/draft/2019-09/schema" []).dialect_shortname
      = "Draft 2019-09" ∧
    (RunMetadata.mk "http://json-schema.org/draft-07/schema#" []).dialect_shortname
      = "Draft 7" ∧
    (RunMetadata.mk "http://json-schema.org/draft-06/schema#" []).dialect_shortname
      = "Draft 6" ∧
    (RunMetadata.mk "http://json-schema.org/draft-04/schema#" []).dialect_shortname
      = "Draft 4" ∧
    (RunMetadata.mk "http://json-schema.org/draft-03/schema#" []).dialect_shortname
      = "Draft 3" ∧
    (RunMetadata.mk "urn:example:dialect" []).dialect_shortname
      = "urn:example:dialect" :=
  ⟨(dialect_shortname_spec ⟨_, []⟩).1 rfl,
   (dialect_shortname_spec ⟨_, []⟩).2.1 rfl,
   (dialect_shortname_spec ⟨_, []⟩).2.2.1 rfl,
   (dialect_shortname_spec ⟨_, []⟩).2.2.2.1 rfl,
   (dialect_shortname_spec ⟨_, []⟩).2.2.2.2.1 rfl,
   (dialect_shortname_spec ⟨_, []⟩).2.2.2.2.2.1 rfl,
   (dialect_shortname_spec ⟨"urn:example:dialect", []⟩).2.2.2.2.2.2 (by decide)⟩

/-- CLAIM C10.  For a report whose dialect is outside the shortname
table, `generate_badges` fails with the `KeyError` of the plain indexing
`_DIALECT_URI_TO_SHORTNAME[self.dialect]` that computes the badge label
(line 391), before the implementation loop runs — so the error result
carries no artifact, and the `.get`-with-fallback used by
`dialect_shortname` is not applied here. -/
theorem generate_badges_unknown_dialect (rep : Report)
    (h : mapFind? DIALECT_URI_TO_SHORTNAME rep.dialect = none) :
    rep.generate_badges = .error .labelKeyError := by
  unfold Report.generate_badges
  rw [h]

/-- Witness for C10: a concrete report over an unknown dialect. -/
theorem generate_badges_unknown_dialect_witness :
    Report.generate_badges repUnknownDialect = .error .labelKeyError :=
  generate_badges_unknown_dialect repUnknownDialect (by decide)

/-- CLAIM C5 (code bug).  `generate_badges` does **not** guard the
percentage computation: with `total_tests = 0` and an implementation
whose declared dialects include the report's dialect, execution reaches
`pct = (passed / total) * 100` (line 410) and fails with a
`ZeroDivisionError` — neither an `InvalidBadgeInput` error (no such kind
exists in the code) nor a skip of that implementation/dialect pair.  The
theorem evaluates the embedding at the failing input: a report assembled
by `from_input` with no registered case (`total_tests = 0`) whose one
implementation supports the dialect and owns a `Count`. -/
theorem generate_badges_zero_division :
    Report.from_input strmZeroTotal = .ok repZeroTotal ∧
    repZeroTotal.total_tests = 0 ∧
    repZeroTotal.dialect ∈ implSupp.dialects ∧
    repZeroTotal.generate_badges = .error .zeroDivision := by
  refine ⟨rfl, rfl, by decide, rfl⟩

/-- Unfolding `from_input` on a stream with a header record. -/
theorem from_input_cons_header (md : RunMetadata) (rest : List Record) :
    Report.from_input (.headerRec md :: rest) =
    match foldRecords md {} rest with
    | .error err => .error err
    | .ok st =>
        .ok { cases := st.cases, metadata := md, summary := st.summary,
              did_fail_fast := st.did_fail_fast } := rfl

/-- Records after a terminal record are never consumed: the fold of any
stream that reaches a `failFast` record equals the fold of the stream cut
right after it. -/
theorem foldRecords_truncate (md : RunMetadata) (b : Bool) :
    ∀ (l₁ : List Record) (st : FoldState) (l₂ : List Record),
      foldRecords md st (l₁ ++ .failFastRec b :: l₂) =
      foldRecords md st (l₁ ++ [.failFastRec b]) := by
  intro l₁
  induction l₁ with
  | nil => intro st l₂; rfl
  | cons r t ih =>
      intro st l₂
      cases r with
      | headerRec m => rfl
      | caseRec seq body =>
          by_cases hd : mapContains st.cases seq
          · simp [foldRecords, hd]
          · simp [foldRecords, hd, ih]
      | erroredRec e =>
          rcases hw : st.summary.with_result (.errored e) with err | s'
          · simp [foldRecords, hw]
          · simp [foldRecords, hw, ih]
      | skippedRec sk =>
          rcases hw : st.summary.with_result (.skipped sk) with err | s'
          · simp [foldRecords, hw]
          · simp [foldRecords, hw, ih]
      | failFastRec b' => rfl
      | resultRec r =>
          rcases hw : st.summary.with_result (.result r) with err | s'
          · simp [foldRecords, hw]
          · simp [foldRecords, hw, ih]

/-- A fold that sees no terminal record leaves the fail-fast flag as it
found it. -/
theorem foldRecords_flag (md : RunMetadata) :
    ∀ (l : List Record) (st st' : FoldState),
      (∀ b, Record.failFastRec b ∉ l) →
      foldRecords md st l = .ok st' →
      st'.did_fail_fast = st.did_fail_fast := by
  intro l
  induction l with
  | nil =>
      intro st st' _ h
      simp only [foldRecords] at h
      cases h
      rfl
  | cons r t ih =>
      intro st st' hnot h
      have hnott : ∀ b, Record.failFastRec b ∉ t := by
        intro b hb
        exact hnot b (List.mem_cons_of_mem _ hb)
      cases r with
      | headerRec m => simp [foldRecords] at h
      | caseRec seq body =>
          by_cases hd : mapContains st.cases seq
          · simp [foldRecords, hd] at h
          · simp only [foldRecords, hd, Bool.false_eq_true, if_false] at h
            exact (ih _ _ hnott h).trans rfl
      | erroredRec e =>
          rcases hw : st.summary.with_result (.errored e) with err | s'
          · simp [foldRecords, hw] at h
          · simp only [foldRecords, hw] at h
            exact (ih _ _ hnott h).trans rfl
      | skippedRec sk =>
          rcases hw : st.summary.with_result (.skipped sk) with err | s'
          · simp [foldRecords, hw] at h
          · simp only [foldRecords, hw] at h
            exact (ih _ _ hnott h).trans rfl
      | failFastRec b => exact absurd (List.mem_cons_self _ _) (hnot b)
      | resultRec r =>
          rcases hw : st.summary.with_result (.result r) with err | s'
          · simp [foldRecords, hw] at h
          · simp only [foldRecords, hw] at h
            exact (ih _ _ hnott h).trans rfl

/-- CLAIM C2.  Fail-fast truncation of `from_input`: (i) nothing after a
terminal record affects the resulting report — the stream may be replaced
beyond that record without changing the outcome; (ii) a stream exhausted
without a terminal record yields `did_fail_fast = false`; (iii) the
stream `[header, case(seq=1), result(seq=1), {did_fail_fast:true},
case(seq=2), result(seq=2)]` assembles to the report holding only
seq 1's case and result, with `did_fail_fast = true`. -/
theorem from_input_fail_fast :
    (∀ (md : RunMetadata) (l₁ : List Record) (b : Bool) (l₂ l₂' : List Record),
       Report.from_input (.headerRec md :: (l₁ ++ .failFastRec b :: l₂)) =
       Report.from_input (.headerRec md :: (l₁ ++ .failFastRec b :: l₂'))) ∧
    (∀ (md : RunMetadata) (l : List Record) (rep : Report),
       (∀ b, Record.failFastRec b ∉ l) →
       Report.from_input (.headerRec md :: l) = .ok rep →
       rep.did_fail_fast = false) ∧
    (Report.from_input demoStream = .ok demoReport) := by
  refine ⟨?_, ?_, rfl⟩
  · intro md l₁ b l₂ l₂'
    rw [from_input_cons_header, from_input_cons_header,
      foldRecords_truncate md b l₁ {} l₂, foldRecords_truncate md b l₁ {} l₂']
  · intro md l rep hnot h
    rw [from_input_cons_header] at h
    rcases hf : foldRecords md {} l with err | st
    · rw [hf] at h; cases h
    · rw [hf] at h
      cases h
      exact foldRecords_flag md l {} st hnot hf

/-- Witness for C2: part (i) at a concrete stream (the tail beyond the
terminal record is swapped), part (ii) at the one-record stream. -/
theorem from_input_fail_fast_witness :
    (Report.from_input
        (.headerRec mdDemo :: ([] ++ .failFastRec true :: [.caseRec 2 bodyDemo2])) =
     Report.from_input
        (.headerRec mdDemo :: ([] ++ .failFastRec true :: []))) ∧
    (Report.mk [] mdDemo {} false).did_fail_fast = false :=
  ⟨from_input_fail_fast.1 mdDemo [] true [.caseRec 2 bodyDemo2] [],
   from_input_fail_fast.2.1 mdDemo [] ⟨[], mdDemo, {}, false⟩
     (fun b hb => by cases hb) rfl⟩

/-- The fold over an appended stream splits, provided the first part holds
no terminal record (a terminal record would truncate). -/
theorem foldRecords_append (md : RunMetadata) :
    ∀ (l₁ : List Record) (st : FoldState) (l₂ : List Record),
      (∀ b, Record.failFastRec b ∉ l₁) →
      foldRecords md st (l₁ ++ l₂) =
      (match foldRecords md st l₁ with
       | .error err => .error err
       | .ok st' => foldRecords md st' l₂) := by
  intro l₁
  induction l₁ with
  | nil => intro st l₂ _; rfl
  | cons r t ih =>
      intro st l₂ hnot
      have hnott : ∀ b, Record.failFastRec b ∉ t := by
        intro b hb
        exact hnot b (List.mem_cons_of_mem _ hb)
      cases r with
      | headerRec m => rfl
      | caseRec seq body =>
          by_cases hd : mapContains st.cases seq
          · simp [foldRecords, hd]
          · simp [foldRecords, hd, ih _ _ hnott]
      | erroredRec e =>
          rcases hw : st.summary.with_result (.errored e) with err | s'
          · simp [foldRecords, hw]
          · simp [foldRecords, hw, ih _ _ hnott]
      | skippedRec sk =>
          rcases hw : st.summary.with_result (.skipped sk) with err | s'
          · simp [foldRecords, hw]
          · simp [foldRecords, hw, ih _ _ hnott]
      | failFastRec b => exact absurd (List.mem_cons_self _ _) (hnot b)
      | resultRec r =>
          rcases hw : st.summary.with_result (.result r) with err | s'
          · simp [foldRecords, hw]
          · simp [foldRecords, hw, ih _ _ hnott]

/-- CLAIM C8.  Whenever the fold reaches a case record whose Seq is
already registered in the case store — whatever case payload either
record carried, and whatever follows — `from_input` fails with the
`DuplicateCase` error. -/
theorem from_input_duplicate_case (md : RunMetadata) (l₁ : List Record)
    (seq : Nat) (body : CaseBody) (l₂ : List Record) (st : FoldState)
    (hnf : ∀ b, Record.failFastRec b ∉ l₁)
    (hfold : foldRecords md {} l₁ = .ok st)
    (hdup : mapContains st.cases seq = true) :
    Report.from_input (.headerRec md :: (l₁ ++ .caseRec seq body :: l₂)) =
      .error (.duplicateCase seq) := by
  rw [from_input_cons_header, foldRecords_append md l₁ {} (.caseRec seq body :: l₂) hnf,
    hfold]
  simp [foldRecords, hdup]

/-- Witness for C8: a second case record at seq 1, with a different
payload. -/
theorem from_input_duplicate_case_witness :
    Report.from_input
        (.headerRec mdDemo ::
          ([.caseRec 1 bodyDemo] ++ .caseRec 1 bodyDemo2 :: [])) =
      .error (.duplicateCase 1) :=
  from_input_duplicate_case mdDemo [.caseRec 1 bodyDemo] 1 bodyDemo2 []
    ⟨[(1, TestCase.from_dict "urn:dialect" bodyDemo)], {}, false⟩
    (fun b => by simp)
    rfl rfl

/-- `be_counted` adds a per-record increment to the previous count. -/
theorem be_counted_add (r : AnyCaseResult) (c : Count) :
    r.be_counted c = c.add r.delta := by
  cases r <;> simp [AnyCaseResult.be_counted, AnyCaseResult.delta, Count.add]

/-- The count a successful `with_result` stores for the record's
implementation. -/
theorem with_result_ok_countFor (s : Summary) (r : AnyCaseResult) (s' : Summary)
    (hok : s.hasResult r.seq r.implementation = false)
    (h : s.with_result r = .ok s') (i : String) (hi : r.implementation = i) :
    s'.countFor i = (s.countFor i).add r.delta := by
  rw [with_result_ok s r hok] at h
  cases h
  subst hi
  simp [Summary.countFor, mapFind?_mapInsert, be_counted_add]

/-- Which `(Seq, implementation)` results the new summary holds after a
successful `with_result`. -/
theorem with_result_ok_hasResult (s : Summary) (r : AnyCaseResult) (s' : Summary)
    (hok : s.hasResult r.seq r.implementation = false)
    (h : s.with_result r = .ok s') (q : Nat) (j : String) :
    s'.hasResult q j =
      if q = r.seq then (r.implementation = j || s.hasResult q j)
      else s.hasResult q j := by
  rw [with_result_ok s r hok] at h
  cases h
  unfold Summary.hasResult
  by_cases hq : q = r.seq
  · subst hq
    simp [mapFind?_mapInsert, mapContains_mapInsert]
  · have hq' : ¬ r.seq = q := fun hh => hq hh.symm
    simp [mapFind?_mapInsert, hq', hq]

/-- Folding result-bearing records with pairwise-fresh `(Seq,
implementation)` pairs succeeds, and the final count for the
implementation is the fold of the per-record increments. -/
theorem foldResults_ok_count (i : String) :
    ∀ (l : List AnyCaseResult) (s : Summary),
      (∀ r ∈ l, r.implementation = i) →
      (l.map AnyCaseResult.seq).Nodup →
      (∀ r ∈ l, s.hasResult r.seq i = false) →
      ∃ s', foldResults s l = .ok s' ∧
        s'.countFor i = (l.map AnyCaseResult.delta).foldl Count.add (s.countFor i) := by
  intro l
  induction l with
  | nil => intro s _ _ _; exact ⟨s, rfl, rfl⟩
  | cons r t ih =>
      intro s himpl hnodup hfresh
      have hri : r.implementation = i := himpl r (List.mem_cons_self _ _)
      have hfr : s.hasResult r.seq r.implementation = false := by
        rw [hri]
        exact hfresh r (List.mem_cons_self _ _)
      obtain ⟨s₁, hok⟩ : ∃ s₁, s.with_result r = .ok s₁ :=
        ⟨_, with_result_ok s r hfr⟩
      have hnodup' : (r.seq ∉ t.map AnyCaseResult.seq) ∧
          (t.map AnyCaseResult.seq).Nodup := by
        rw [List.map_cons] at hnodup
        exact List.nodup_cons.mp hnodup
      have himpl_t : ∀ r' ∈ t, r'.implementation = i :=
        fun r' hr' => himpl r' (List.mem_cons_of_mem _ hr')
      have hfresh_t : ∀ r' ∈ t, s₁.hasResult r'.seq i = false := by
        intro r' hr'
        rw [with_result_ok_hasResult s r s₁ hfr hok r'.seq i]
        have hne : r'.seq ≠ r.seq := by
          intro heq
          exact hnodup'.1 (heq ▸ List.mem_map_of_mem AnyCaseResult.seq hr')
        rw [if_neg hne]
        exact hfresh r' (List.mem_cons_of_mem _ hr')
      obtain ⟨s', hfold, hcount⟩ := ih s₁ himpl_t hnodup'.2 hfresh_t
      refine ⟨s', ?_, ?_⟩
      · simp only [foldResults, hok]
        exact hfold
      · rw [hcount, with_result_ok_countFor s r s₁ hfr hok i hri]
        rfl

/-- `foldl Count.add` computed fieldwise. -/
theorem foldl_add_fields :
    ∀ (l : List Count) (c : Count),
      l.foldl Count.add c =
        ⟨c.failed_tests + (l.map Count.failed_tests).sum,
         c.errored_tests + (l.map Count.errored_tests).sum,
         c.skipped_tests + (l.map Count.skipped_tests).sum⟩ := by
  intro l
  induction l with
  | nil => intro c; cases c; simp
  | cons d t ih => intro c; simp [List.foldl_cons, ih, Count.add, Nat.add_assoc]

/-- CLAIM C3.  Folding a set of result-bearing records for one
implementation with pairwise-distinct Seqs into the empty summary
succeeds in any permutation, and every permutation produces the same
final `Count` for that implementation. -/
theorem count_order_independence (i : String) (l₁ l₂ : List AnyCaseResult)
    (hperm : l₁.Perm l₂)
    (himpl : ∀ r ∈ l₁, r.implementation = i)
    (hnodup : (l₁.map AnyCaseResult.seq).Nodup) :
    ∃ s₁ s₂, foldResults {} l₁ = .ok s₁ ∧ foldResults {} l₂ = .ok s₂ ∧
      s₁.countFor i = s₂.countFor i := by
  have himpl₂ : ∀ r ∈ l₂, r.implementation = i :=
    fun r hr => himpl r (hperm.mem_iff.mpr hr)
  have hnodup₂ : (l₂.map AnyCaseResult.seq).Nodup :=
    ((hperm.map AnyCaseResult.seq).nodup_iff).mp hnodup
  obtain ⟨s₁, h₁, hc₁⟩ :=
    foldResults_ok_count i l₁ {} himpl hnodup (fun r _ => rfl)
  obtain ⟨s₂, h₂, hc₂⟩ :=
    foldResults_ok_count i l₂ {} himpl₂ hnodup₂ (fun r _ => rfl)
  refine ⟨s₁, s₂, h₁, h₂, ?_⟩
  rw [hc₁, hc₂, foldl_add_fields, foldl_add_fields]
  have hp : (l₁.map AnyCaseResult.delta).Perm (l₂.map AnyCaseResult.delta) :=
    hperm.map _
  rw [(hp.map Count.failed_tests).sum_eq, (hp.map Count.errored_tests).sum_eq,
    (hp.map Count.skipped_tests).sum_eq]

/-- Witness for C3: two records for implementation `"i"` at Seqs 1 and 2,
folded in both orders. -/
theorem count_order_independence_witness :
    ∃ s₁ s₂,
      foldResults {}
          [.errored ⟨"i", 1, "c", true⟩, .skipped ⟨"i", 2, none⟩] = .ok s₁ ∧
      foldResults {}
          [.skipped ⟨"i", 2, none⟩, .errored ⟨"i", 1, "c", true⟩] = .ok s₂ ∧
      s₁.countFor "i" = s₂.countFor "i" :=
  count_order_independence "i" _ _ (by decide) (by decide) (by decide)

/-- CLAIM C7.  Badge arithmetic: `passed = total −
(failed+errored+skipped)`, `pct = passed/total × 100`, color bytes `red =
100 − pct`, `green = pct`, `blue = 0`, each truncated to an integer and
rendered as two-digit hex.  At `total_tests=10, failed=1, errored=0,
skipped=1`: `passed = 8`, `pct = 80`, bytes `(20, 80, 0)`, hex color
`"145000"`, and the generated compliance badge carries message
`"80% Passing"` and color `"145000"`. -/
theorem badge_arithmetic :
    badgePassed 10 countsBadge = 8 ∧
    badgePct 10 countsBadge = 80 ∧
    (100 - qtrunc (badgePct 10 countsBadge),
      qtrunc (badgePct 10 countsBadge), (0 : ℤ)) = (20, 80, 0) ∧
    hex02 20 ++ hex02 80 ++ hex02 0 = "145000" ∧
    repBadge.generate_badges = .ok
      [(["python-imp", "compliance", "Draft_7.json"],
        { schemaVersion := 1
          label := "Draft 7"
          message := "80% Passing"
          color := "145000" }),
       (["python-imp", "supported_versions.json"],
        { schemaVersion := 1
          label := "JSON Schema Versions"
          message := "7"
          color := "lightgreen" })] := by
  have hpassed : badgePassed 10 countsBadge = 8 := by decide
  have hpct : badgePct 10 countsBadge = 80 := by
    unfold badgePct
    rw [hpassed]
    norm_num
  have hfl : qtrunc (badgePct 10 countsBadge) = 80 := by
    rw [hpct]
    unfold qtrunc
    rw [if_neg (by norm_num)]
    rw [show (80 : ℚ) = ((80 : ℤ) : ℚ) by norm_cast, Int.floor_intCast]
  have h0 : repBadge.generate_badges = .ok
      [(["python" ++ "-" ++ "imp", "compliance",
         replaceChar "Draft 7" ' ' '_' ++ ".json"],
        { schemaVersion := 1
          label := "Draft 7"
          message := toString (qtrunc (badgePct 10 countsBadge)) ++ "% Passing"
          color := hex02 (100 - qtrunc (badgePct 10 countsBadge)) ++
                   hex02 (qtrunc (badgePct 10 countsBadge)) ++ hex02 0 }),
       (["python" ++ "-" ++ "imp", "supported_versions.json"],
        { schemaVersion := 1
          label := "JSON Schema Versions"
          message := String.intercalate ", "
            (List.map (removePre "Draft ") ["Draft 7"])
          color := "lightgreen" })] := rfl
  refine ⟨hpassed, hpct, by rw [hfl]; rfl, rfl, ?_⟩
  rw [h0, hfl]
  rfl

/-- `testRow` succeeds when every result present for the case covers test
position `i`; its keys are exactly the walked implementations that hold a
result, and each value is that result's outcome at `i`. -/
theorem testRow_ok (cr : List (String × AnyCaseResult)) (i : Nat) :
    ∀ (impls : List String),
      (∀ each res, mapFind? cr each = some res →
         (res.resultsAt i).isSome = true) →
      ∃ m, testRow cr i impls = .ok m ∧
        m.map Prod.fst = impls.filter (fun e => mapContains cr e) ∧
        (∀ q res o, q ∈ impls → mapFind? cr q = some res →
           res.resultsAt i = some o → mapFind? m q = some o) := by
  intro impls
  induction impls with
  | nil =>
      intro _
      exact ⟨[], rfl, rfl, by intro q res o hq; cases hq⟩
  | cons each rest ih =>
      intro h
      obtain ⟨m, hm, hkeys, hvals⟩ := ih h
      rcases hf : mapFind? cr each with _ | res
      · refine ⟨m, ?_, ?_, ?_⟩
        · simp [testRow, hf, hm]
        · have hc : mapContains cr each = false := by simp [mapContains, hf]
          simp [List.filter_cons, hc, hkeys]
        · intro q res o hq hfq ho
          rcases List.mem_cons.mp hq with rfl | hq'
          · rw [hf] at hfq; cases hfq
          · exact hvals q res o hq' hfq ho
      · have hsome := h each res hf
        rcases ho : res.resultsAt i with _ | outcome
        · rw [ho] at hsome; cases hsome
        · refine ⟨(each, outcome) :: m, ?_, ?_, ?_⟩
          · simp [testRow, hf, ho, hm]
          · have hc : mapContains cr each = true := by simp [mapContains, hf]
            simp [List.filter_cons, hc, hkeys]
          · intro q res' o' hq hfq ho'
            by_cases hqe : each = q
            · subst hqe
              rw [hf] at hfq
              cases hfq
              rw [ho] at ho'
              cases ho'
              simp [mapFind?]
            · rcases List.mem_cons.mp hq with rfl | hq'
              · exact absurd rfl hqe
              · simp only [mapFind?, hqe, if_false]
                exact hvals q res' o' hq' hfq ho'

/-- The per-test loop of `cases_with_results` succeeds when every present
result covers every walked position, producing one row per test. -/
theorem caseRows_ok (impls : List String)
    (cr : List (String × AnyCaseResult)) :
    ∀ (ts : List Test) (i : Nat),
      (∀ each res, mapFind? cr each = some res →
         ∀ j, j < i + ts.length → (res.resultsAt j).isSome = true) →
      ∃ rows, caseRows impls cr i ts = .ok rows ∧
        rows.length = ts.length ∧
        ∀ k t, ts.get? k = some t →
          ∃ m, rows.get? k = some (t, m) ∧ testRow cr (i + k) impls = .ok m := by
  intro ts
  induction ts with
  | nil =>
      intro i _
      exact ⟨[], rfl, rfl, by intro k t hk; cases hk⟩
  | cons t tsr ih =>
      intro i h
      have hi : ∀ each res, mapFind? cr each = some res →
          (res.resultsAt i).isSome = true := by
        intro each res hf
        refine h each res hf i ?_
        simp only [List.length_cons]
        omega
      obtain ⟨m, hm, _, _⟩ := testRow_ok cr i impls hi
      have hrec : ∀ each res, mapFind? cr each = some res →
          ∀ j, j < (i + 1) + tsr.length → (res.resultsAt j).isSome = true := by
        intro each res hf j hj
        refine h each res hf j ?_
        simp only [List.length_cons]
        omega
      obtain ⟨rows, hrows, hlen, hget⟩ := ih (i + 1) hrec
      refine ⟨(t, m) :: rows, ?_, ?_, ?_⟩
      · simp [caseRows, hm, hrows]
      · simp [hlen]
      · intro k tk hk
        cases k with
        | zero =>
            simp only [List.get?_cons_zero, Option.some.injEq] at hk
            subst hk
            exact ⟨m, rfl, hm⟩
        | succ k' =>
            simp only [List.get?_cons_succ] at hk
            obtain ⟨m', hm', ht'⟩ := hget k' tk hk
            refine ⟨m', by simpa using hm', ?_⟩
            have harith : (i + 1) + k' = i + (k' + 1) := by omega
            rw [← harith]
            exact ht'

/-- The outer loop of `cases_with_results` succeeds when every walked
case has results and those results cover its test positions. -/
theorem casesLoop_ok (impls : List String)
    (sres : List (Nat × List (String × AnyCaseResult))) :
    ∀ (cl : List (Nat × TestCase)),
      (∀ p ∈ cl, mapContains sres p.1 = true) →
      (∀ p ∈ cl, ∀ entry, mapFind? sres p.1 = some entry →
         ∀ each res, mapFind? entry each = some res →
           ∀ j, j < p.2.tests.length → (res.resultsAt j).isSome = true) →
      ∃ out, casesLoop impls sres cl = .ok out ∧
        out.length = cl.length ∧
        ∀ n sq c, cl.get? n = some (sq, c) →
          ∃ entry rows, mapFind? sres sq = some entry ∧
            out.get? n = some (c, rows) ∧
            caseRows impls entry 0 c.tests = .ok rows := by
  intro cl
  induction cl with
  | nil =>
      intro _ _
      exact ⟨[], rfl, rfl, by intro n sq c hn; cases hn⟩
  | cons p rest ih =>
      obtain ⟨sq, c⟩ := p
      intro hkey hidx
      have hkey0 : mapContains sres sq = true :=
        hkey (sq, c) (List.mem_cons_self _ _)
      rcases hf : mapFind? sres sq with _ | entry
      · rw [mapContains, hf] at hkey0
        cases hkey0
      · have hcov : ∀ each res, mapFind? entry each = some res →
            ∀ j, j < c.tests.length → (res.resultsAt j).isSome = true :=
          fun each res hres j hj =>
            hidx (sq, c) (List.mem_cons_self _ _) entry hf each res hres j hj
        obtain ⟨rows, hrows, _, _⟩ := caseRows_ok impls entry c.tests 0 (by
          intro each res hres j hj
          refine hcov each res hres j ?_
          omega)
        obtain ⟨out, hout, hlen, hget⟩ :=
          ih (fun p hp => hkey p (List.mem_cons_of_mem _ hp))
            (fun p hp => hidx p (List.mem_cons_of_mem _ hp))
        refine ⟨(c, rows) :: out, ?_, ?_, ?_⟩
        · simp [casesLoop, hf, hrows, hout]
        · simp [hlen]
        · intro n sq' c' hn
          cases n with
          | zero =>
              simp only [List.get?_cons_zero, Option.some.injEq,
                Prod.mk.injEq] at hn
              obtain ⟨rfl, rfl⟩ := hn
              exact ⟨entry, rows, hf, rfl, hrows⟩
          | succ n' =>
              simp only [List.get?_cons_succ] at hn
              obtain ⟨entry', rows', h1, h2, h3⟩ := hget n' sq' c' hn
              exact ⟨entry', rows', h1, by simpa using h2, h3⟩

/-- The fold never registers two cases under one Seq: the case-store keys
stay pairwise distinct. -/
theorem foldRecords_cases_nodup (md : RunMetadata) :
    ∀ (l : List Record) (st st' : FoldState),
      (st.cases.map Prod.fst).Nodup →
      foldRecords md st l = .ok st' →
      (st'.cases.map Prod.fst).Nodup := by
  intro l
  induction l with
  | nil =>
      intro st st' hn h
      simp only [foldRecords] at h
      cases h
      exact hn
  | cons r t ih =>
      intro st st' hn h
      cases r with
      | headerRec m => simp [foldRecords] at h
      | caseRec seq body =>
          by_cases hd : mapContains st.cases seq
          · simp [foldRecords, hd] at h
          · simp only [foldRecords, hd, Bool.false_eq_true, if_false] at h
            refine ih _ _ ?_ h
            have hdf : mapContains st.cases seq = false := by
              simpa using hd
            rw [mapInsert_keys_of_not_contains _ _ _ hdf]
            have hmem : seq ∉ st.cases.map Prod.fst := by
              intro hmem
              rw [← mapContains_eq_mem_keys] at hmem
              rw [hdf] at hmem
              cases hmem
            rw [List.nodup_append]
            exact ⟨hn, List.nodup_singleton _,
              fun a ha hb => by
                simp only [List.mem_singleton] at hb
                subst hb
                exact hmem ha⟩
      | erroredRec e =>
          rcases hw : st.summary.with_result (.errored e) with err | s'
          · simp [foldRecords, hw] at h
          · simp only [foldRecords, hw] at h
            refine ih _ _ ?_ h
            exact hn
      | skippedRec sk =>
          rcases hw : st.summary.with_result (.skipped sk) with err | s'
          · simp [foldRecords, hw] at h
          · simp only [foldRecords, hw] at h
            refine ih _ _ ?_ h
            exact hn
      | failFastRec b =>
          simp only [foldRecords] at h
          cases h
          exact hn
      | resultRec r =>
          rcases hw : st.summary.with_result (.result r) with err | s'
          · simp [foldRecords, hw] at h
          · simp only [foldRecords, hw] at h
            refine ih _ _ ?_ h
            exact hn

/-- An assembled report's case store has pairwise-distinct Seqs. -/
theorem from_input_cases_nodup (input : List Record) (rep : Report)
    (h : Report.from_input input = .ok rep) :
    (rep.cases.map Prod.fst).Nodup := by
  cases input with
  | nil => exact absurd h (by simp [Report.from_input])
  | cons first rest =>
      cases first with
      | headerRec md =>
          rw [from_input_cons_header] at h
          rcases hf : foldRecords md {} rest with err | st
          · rw [hf] at h; cases h
          · rw [hf] at h
            cases h
            exact foldRecords_cases_nodup md rest {} st (by simp) hf
      | caseRec seq body => exact absurd h (by simp [Report.from_input])
      | erroredRec e => exact absurd h (by simp [Report.from_input])
      | skippedRec sk => exact absurd h (by simp [Report.from_input])
      | failFastRec b => exact absurd h (by simp [Report.from_input])
      | resultRec r => exact absurd h (by simp [Report.from_input])

/-- CLAIM C4 (amended).  For an assembled report in which every
registered case holds at least one result, every stored result belongs to
an implementation listed in the run metadata, and every stored result
covers each of its case's test positions, `cases_with_results` succeeds
and yields the registered cases in strictly ascending Seq order; for each
`Test` at its position it produces a mapping holding exactly the
implementations that produced any result for that case — the value being
that result's outcome at the test's position — and an implementation
without a result for a case is absent from the mapping (silently omitted,
not an error).  (The original claim, quantified over *every* assembled
report, fails: a registered case with no result at all makes
`self.summary[seq]` raise `KeyError` — see
`cases_with_results_keyerror`.) -/
theorem cases_with_results_spec (input : List Record) (rep : Report)
    (hassembled : Report.from_input input = .ok rep)
    (hkey : ∀ p ∈ rep.cases, mapContains rep.summary.results p.1 = true)
    (himpls : ∀ pe ∈ rep.summary.results, ∀ q ∈ pe.2,
        q.1 ∈ rep.implementations)
    (hcover : ∀ p ∈ rep.cases, ∀ pe ∈ rep.summary.results, pe.1 = p.1 →
        ∀ q ∈ pe.2, ∀ j, j < p.2.tests.length →
          (AnyCaseResult.resultsAt q.2 j).isSome = true) :
    ∃ out, rep.cases_with_results = .ok out ∧
      (sortCases rep.cases).Perm rep.cases ∧
      List.Pairwise (· < ·) ((sortCases rep.cases).map Prod.fst) ∧
      out.length = rep.cases.length ∧
      ∀ n sq c, (sortCases rep.cases).get? n = some (sq, c) →
        ∃ rows, out.get? n = some (c, rows) ∧
          rows.length = c.tests.length ∧
          ∀ k t, c.tests.get? k = some t →
            ∃ m, rows.get? k = some (t, m) ∧
              (∀ impl, mapContains m impl =
                 mapContains ((mapFind? rep.summary.results sq).getD []) impl) ∧
              (∀ impl res o,
                 mapFind? ((mapFind? rep.summary.results sq).getD []) impl
                   = some res →
                 res.resultsAt k = some o → mapFind? m impl = some o) := by
  have hperm : (sortCases rep.cases).Perm rep.cases :=
    List.perm_insertionSort _ _
  have hnodupkeys : (rep.cases.map Prod.fst).Nodup :=
    from_input_cases_nodup input rep hassembled
  have hnodupsort : ((sortCases rep.cases).map Prod.fst).Nodup :=
    ((hperm.map Prod.fst).nodup_iff).mpr hnodupkeys
  have hsorted : List.Pairwise (fun a b : Nat × TestCase => a.1 ≤ b.1)
      (sortCases rep.cases) := List.sorted_insertionSort _ _
  have hpair_le : List.Pairwise (· ≤ ·) ((sortCases rep.cases).map Prod.fst) :=
    List.pairwise_map.mpr hsorted
  have hpair_lt : List.Pairwise (· < ·) ((sortCases rep.cases).map Prod.fst) :=
    (hpair_le.and hnodupsort).imp fun hab => lt_of_le_of_ne hab.1 hab.2
  have hkey' : ∀ p ∈ sortCases rep.cases,
      mapContains rep.summary.results p.1 = true :=
    fun p hp => hkey p (hperm.subset hp)
  have hidx' : ∀ p ∈ sortCases rep.cases, ∀ entry,
      mapFind? rep.summary.results p.1 = some entry →
      ∀ each res, mapFind? entry each = some res →
        ∀ j, j < p.2.tests.length → (res.resultsAt j).isSome = true := by
    intro p hp entry hentry each res hres j hj
    exact hcover p (hperm.subset hp) (p.1, entry)
      (mapFind?_mem _ _ _ hentry) rfl (each, res)
      (mapFind?_mem _ _ _ hres) j hj
  obtain ⟨out, hout, hlen, hget⟩ :=
    casesLoop_ok rep.implementations rep.summary.results
      (sortCases rep.cases) hkey' hidx'
  refine ⟨out, hout, hperm, hpair_lt, hlen.trans hperm.length_eq, ?_⟩
  intro n sq c hn
  obtain ⟨entry, rows, hentry, hrown, hrows⟩ := hget n sq c hn
  have hpmem : (sq, c) ∈ sortCases rep.cases := List.get?_mem hn
  have hcov : ∀ each res, mapFind? entry each = some res →
      ∀ j, j < c.tests.length → (res.resultsAt j).isSome = true :=
    fun each res hres j hj => hidx' (sq, c) hpmem entry hentry each res hres j hj
  obtain ⟨rows', hrows', hrowlen, hrowget⟩ :=
    caseRows_ok rep.implementations entry c.tests 0 (by
      intro each res hres j hj
      refine hcov each res hres j ?_
      omega)
  have hroweq : rows = rows' := by
    have := hrows.symm.trans hrows'
    cases this
    rfl
  subst hroweq
  refine ⟨rows, hrown, hrowlen, ?_⟩
  intro k t hk
  obtain ⟨m, hmk, hmrow⟩ := hrowget k t hk
  rw [Nat.zero_add] at hmrow
  have hiso : ∀ each res, mapFind? entry each = some res →
      (res.resultsAt k).isSome = true := by
    intro each res hres
    refine hcov each res hres k ?_
    exact (List.get?_eq_some.mp hk).1
  obtain ⟨m', hm', hkeys', hvals'⟩ :=
    testRow_ok entry k rep.implementations hiso
  have hmeq : m = m' := by
    have := hmrow.symm.trans hm'
    cases this
    rfl
  subst hmeq
  have hentry_mem : ∀ impl res, mapFind? entry impl = some res →
      impl ∈ rep.implementations := by
    intro impl res hres
    exact himpls (sq, entry) (mapFind?_mem _ _ _ hentry) (impl, res)
      (mapFind?_mem _ _ _ hres)
  refine ⟨m, hmk, ?_, ?_⟩
  · intro impl
    rw [hentry]
    simp only [Option.getD_some]
    rcases hc : mapContains entry impl with _ | _
    · rcases hcm : mapContains m impl with _ | _
      · rfl
      · exfalso
        have : impl ∈ m.map Prod.fst := (mapContains_eq_mem_keys _ _).mp hcm
        rw [hkeys'] at this
        have := (List.mem_filter.mp this).2
        rw [hc] at this
        cases this
    · have hsome : ∃ res, mapFind? entry impl = some res := by
        rcases hff : mapFind? entry impl with _ | res
        · rw [mapContains, hff] at hc; cases hc
        · exact ⟨res, rfl⟩
      obtain ⟨res, hres⟩ := hsome
      have himm : impl ∈ rep.implementations := hentry_mem impl res hres
      have : impl ∈ (rep.implementations.filter fun e => mapContains entry e) :=
        List.mem_filter.mpr ⟨himm, hc⟩
      rw [← hkeys'] at this
      exact (mapContains_eq_mem_keys _ _).mpr this
  · intro impl res o hres ho
    rw [hentry] at hres
    simp only [Option.getD_some] at hres
    exact hvals' impl res o (hentry_mem impl res hres) hres ho

/-- COUNTEREXAMPLE to C4 as stated: an assembled report (one registered
case, no result for it) on which `cases_with_results` fails with the
`KeyError` of `self.summary[seq]` instead of yielding the case with an
empty per-implementation mapping. -/
theorem cases_with_results_keyerror :
    Report.from_input strmNoResult = .ok repNoResult ∧
    repNoResult.cases_with_results = .error (.keyError 1) :=
  ⟨rfl, rfl⟩

/-- Witness for the amended C4: the one-case one-result report. -/
theorem cases_with_results_spec_witness :
    ∃ out, repOneResult.cases_with_results = .ok out ∧
      (sortCases repOneResult.cases).Perm repOneResult.cases ∧
      List.Pairwise (· < ·) ((sortCases repOneResult.cases).map Prod.fst) ∧
      out.length = repOneResult.cases.length ∧
      ∀ n sq c, (sortCases repOneResult.cases).get? n = some (sq, c) →
        ∃ rows, out.get? n = some (c, rows) ∧
          rows.length = c.tests.length ∧
          ∀ k t, c.tests.get? k = some t →
            ∃ m, rows.get? k = some (t, m) ∧
              (∀ impl, mapContains m impl =
                 mapContains
                   ((mapFind? repOneResult.summary.results sq).getD []) impl) ∧
              (∀ impl res o,
                 mapFind? ((mapFind? repOneResult.summary.results sq).getD []) impl
                   = some res →
                 res.resultsAt k = some o → mapFind? m impl = some o) :=
  cases_with_results_spec strmOneResult repOneResult rfl
    (by decide) (by decide) (by decide)
